import Mathlib

/-!
# Relationship network viewer (`js/app.js`)

A shallow embedding of the page script: the in-memory SQLite image, the projection
`loadNetworkData`, the tap / toggle state machine, the relationship picker and the
character wizard.  The ambient globals `db`, `cy`, `isEditMode`, `window.selectedSource`
and the modal element are fields of one explicit `App` record that every handler takes
and returns.
-/

set_option autoImplicit false

namespace Network

/-! ## JavaScript values -/

/-- JavaScript values that occur in the script: row cells handed back by the store,
bound statement parameters and results of a property lookup.  `object` stands for a
function or a plain object (the inherited members of `Object.prototype`). -/
inductive Val where
  | undefined
  | null
  | num (n : Int)
  | str (s : String)
  | object
  deriving DecidableEq, Repr

/-- Conversion of a value inside a template literal. -/
def Val.toJsString : Val → String
  | .undefined => "undefined"
  | .null => "null"
  | .num n => toString n
  | .str s => s
  | .object => "[object Object]"

/-- Array indexing `row[i]`: an index past the end reads `undefined`. -/
def idx (row : List Val) (i : Nat) : Val := row.getD i Val.undefined

/-- Errors a handler can stop with.  `typeError` is a property read on `undefined` or
`null`.  `wrongApiUse` is what sql.js throws while binding a parameter that is not a
string, number, boolean, `null` or byte array ("Wrong API use : tried to bind a value of
an unknown type"), before the statement is stepped.  `constraintFailed` is an insert that
violates a declared key. -/
inductive Err where
  | typeError
  | wrongApiUse
  | constraintFailed
  deriving DecidableEq, Repr

/-! ## Configuration -/

/-- The own keys of `RELATIONSHIP_SCALE`, in source order. -/
def relationshipTypes : List String :=
  ["despises", "hates", "dislikes", "neutral", "likes", "likes_a_lot", "in_love_with"]

/-- Property names every object literal inherits from `Object.prototype`. -/
def objectPrototypeMembers : List String :=
  ["constructor", "__proto__", "hasOwnProperty", "isPrototypeOf", "propertyIsEnumerable",
   "toLocaleString", "toString", "valueOf", "__defineGetter__", "__defineSetter__",
   "__lookupGetter__", "__lookupSetter__"]

/-- The lookup `RELATIONSHIP_SCALE[key]`: the seven own entries, then the prototype
chain, then `undefined`. -/
def RELATIONSHIP_SCALE (key : String) : Val :=
  if key = "despises" then .num (-3)
  else if key = "hates" then .num (-2)
  else if key = "dislikes" then .num (-1)
  else if key = "neutral" then .num 0
  else if key = "likes" then .num 1
  else if key = "likes_a_lot" then .num 2
  else if key = "in_love_with" then .num 3
  else if key ∈ objectPrototypeMembers then .object
  else .undefined

/-! ## The store -/

/-- Modelled from the spec: the Characters row-set `(id, name, color, group, active)`;
the table declaration lives in the snapshot file, which the script only queries. -/
structure Character where
  id : String
  name : String
  color : Val
  group : Val
  is_active : Val
  deriving DecidableEq, Repr

/-- Modelled from the spec: the Relationships row-set
`(id, source_id, target_id, type, strength, notes)`; `id` is assigned by the store. -/
structure Relationship where
  id : Nat
  source_id : String
  target_id : String
  type : String
  strength : Val
  notes : Val
  deriving DecidableEq, Repr

/-- What the snapshot declares about its tables and the script cannot see: whether
`(source_id, target_id)` is a declared key of `relationships`, whether `id` is a
declared key of `characters`, and the column defaults an insert falls back on. -/
structure Schema where
  pairKey : Bool
  characterKey : Bool
  groupDefault : Val
  activeDefault : Val
  notesDefault : Val
  deriving DecidableEq, Repr

/-- The relational image held in `db`. -/
structure Db where
  schema : Schema
  characters : List Character
  relationships : List Relationship
  deriving DecidableEq, Repr

/-- A character row as `SELECT *` returns it. -/
def Character.toRow (c : Character) : List Val :=
  [.str c.id, .str c.name, c.color, c.group, c.is_active]

/-- A relationship row as `SELECT *` returns it. -/
def Relationship.toRow (r : Relationship) : List Val :=
  [.num r.id, .str r.source_id, .str r.target_id, .str r.type, r.strength, r.notes]

/-- Whether the store can bind the value to a statement parameter. -/
def bindable : Val → Bool
  | .undefined => false
  | .object => false
  | _ => true

/-- The row id the store gives the next inserted relationship: one past the largest. -/
def nextRowid (rs : List Relationship) : Nat :=
  (rs.map (fun r => r.id)).foldr max 0 + 1

/-- Whether the row is the one for the ordered pair. -/
def Relationship.hasPair (s t : String) (r : Relationship) : Bool :=
  decide (r.source_id = s) && decide (r.target_id = t)

/-- The statement
`INSERT OR REPLACE INTO relationships (source_id, target_id, type, strength, notes)`:
parameters are bound first; under a declared pair key the rows holding the pair are
deleted; the new row goes last with a fresh id. -/
def runInsertOrReplace (db : Db) (sourceId targetId type : String) (strength : Val)
    (notes : String) : Except Err Db :=
  if bindable strength then
    let kept :=
      if db.schema.pairKey then db.relationships.filter (fun r => !r.hasPair sourceId targetId)
      else db.relationships
    .ok { db with relationships :=
      kept ++ [⟨nextRowid db.relationships, sourceId, targetId, type, strength, .str notes⟩] }
  else .error .wrongApiUse

/-- The statement `INSERT INTO relationships (source_id, target_id, type, strength)`:
no conflict clause, so a pair already present under a declared pair key aborts the
statement; `notes` takes the column default. -/
def runInsert (db : Db) (sourceId targetId type : String) (strength : Val) : Except Err Db :=
  if bindable strength then
    if db.schema.pairKey && db.relationships.any (fun r => r.hasPair sourceId targetId) then
      .error .constraintFailed
    else
      .ok { db with relationships := db.relationships ++
        [⟨nextRowid db.relationships, sourceId, targetId, type, strength, db.schema.notesDefault⟩] }
  else .error .wrongApiUse

/-- The statement `INSERT INTO characters (id, name, color)`. -/
def runInsertCharacter (db : Db) (id name : String) (color : Val) : Except Err Db :=
  if db.schema.characterKey && db.characters.any (fun c => decide (c.id = id)) then
    .error .constraintFailed
  else
    .ok { db with characters := db.characters ++
      [⟨id, name, color, db.schema.groupDefault, db.schema.activeDefault⟩] }

/-- The result array of `db.exec` for one `SELECT`: a result object is pushed only once
a first row has been stepped, so a query without rows gives the empty array. -/
def exec {α : Type} (rows : List α) : List (List α) :=
  if rows.isEmpty then [] else [rows]

/-- The expression `result[0].values`. -/
def firstValues {α : Type} (result : List (List α)) : Except Err (List α) :=
  match result with
  | [] => .error .typeError
  | values :: _ => .ok values

/-- Rows of `SELECT * FROM characters WHERE is_active = 1`. -/
def activeCharacterRows (db : Db) : List (List Val) :=
  (db.characters.filter (fun c => decide (c.is_active = .num 1))).map Character.toRow

/-- Rows of `SELECT * FROM relationships`. -/
def relationshipRows (db : Db) : List (List Val) :=
  db.relationships.map Relationship.toRow

/-- Rows of `SELECT id, name FROM characters WHERE id != ?`. -/
def otherCharacters (db : Db) (id : String) : List (String × String) :=
  (db.characters.filter (fun c => decide (c.id ≠ id))).map (fun c => (c.id, c.name))

/-- Rows of `SELECT id FROM characters WHERE id != ?`. -/
def otherIds (db : Db) (id : String) : List String :=
  (db.characters.filter (fun c => decide (c.id ≠ id))).map (fun c => c.id)

/-! ## The view model -/

/-- The `data` of a node element. -/
structure NodeData where
  id : Val
  label : Val
  color : Val
  group : Val
  deriving DecidableEq, Repr

/-- The `data` of an edge element. -/
structure EdgeData where
  id : String
  source : Val
  target : Val
  label : Val
  strength : Val
  notes : Val
  deriving DecidableEq, Repr

/-- The object `{ nodes, edges }`. -/
structure Elements where
  nodes : List NodeData
  edges : List EdgeData
  deriving DecidableEq, Repr

/-- The node built from one character row. -/
def nodeOfRow (row : List Val) : NodeData :=
  { id := idx row 0, label := idx row 1, color := idx row 2, group := idx row 4 }

/-- The edge built from one relationship row. -/
def edgeOfRow (row : List Val) : EdgeData :=
  { id := "e" ++ (idx row 0).toJsString, source := idx row 1, target := idx row 2,
    label := idx row 3, strength := idx row 4, notes := idx row 5 }

/-- The function `loadNetworkData`. -/
def loadNetworkData (db : Db) : Except Err Elements :=
  match firstValues (exec (activeCharacterRows db)) with
  | .error e => .error e
  | .ok chars =>
    match firstValues (exec (relationshipRows db)) with
    | .error e => .error e
    | .ok rels => .ok { nodes := chars.map nodeOfRow, edges := rels.map edgeOfRow }

/-! ## The rendered graph -/

/-- The `data` of a rendered element. -/
inductive EleData where
  | node (d : NodeData)
  | edge (d : EdgeData)
  deriving DecidableEq, Repr

/-- An element of the rendered graph with its style classes. -/
structure Ele where
  data : EleData
  classes : List String
  deriving DecidableEq, Repr

/-- The element id. -/
def Ele.id (e : Ele) : Val :=
  match e.data with
  | .node d => d.id
  | .edge d => .str d.id

/-- Whether the element is a node. -/
def Ele.isNode (e : Ele) : Bool :=
  match e.data with
  | .node _ => true
  | .edge _ => false

/-- Whether the element is an edge with the node at one of its ends. -/
def Ele.touches (e : Ele) (n : Val) : Bool :=
  match e.data with
  | .node _ => false
  | .edge d => decide (d.source = n) || decide (d.target = n)

/-- The collection `cy.elements()`, as the ids it holds. -/
def elements (cy : List Ele) : List Val := cy.map Ele.id

/-- The collection `node.connectedEdges()`. -/
def connectedEdges (cy : List Ele) (node : Val) : List Val :=
  (cy.filter (fun e => e.touches node)).map Ele.id

/-- The collection `edges.connectedNodes()`: the nodes at the ends of the edges. -/
def connectedNodes (cy : List Ele) (edges : List Val) : List Val :=
  (cy.filter (fun v => v.isNode &&
    cy.any (fun e => decide (e.id ∈ edges) && e.touches v.id))).map Ele.id

/-- The collection `a.not(b)`. -/
def without (a b : List Val) : List Val := a.filter (fun x => decide (x ∉ b))

/-- The call `collection.addClass(cls)`. -/
def addClass (cy : List Ele) (collection : List Val) (cls : String) : List Ele :=
  cy.map (fun e =>
    if e.id ∈ collection then
      { e with classes := if cls ∈ e.classes then e.classes else e.classes ++ [cls] }
    else e)

/-- The call `collection.removeClass(...)` with a list of class names. -/
def removeClass (cy : List Ele) (collection : List Val) (names : List String) : List Ele :=
  cy.map (fun e =>
    if e.id ∈ collection then
      { e with classes := e.classes.filter (fun c => decide (c ∉ names)) }
    else e)

/-- Whether an element with this id carries the class. -/
def hasClass (cy : List Ele) (id : Val) (cls : String) : Bool :=
  cy.any (fun e => decide (e.id = id) && decide (cls ∈ e.classes))

/-! ## Page state -/

/-- Content of the modal element: the relationship picker with the values of `rel-type`
and `rel-notes`, or the wizard with one selector (element id, value) per table row. -/
inductive Modal where
  | blank
  | picker (source target relType relNotes : String)
  | wizard (id name : String) (selectors : List (String × String))
  deriving DecidableEq, Repr

/-- The expression `document.getElementById(elementId).value`; `none` when no such
element is in the modal. -/
def getElementValue (m : Modal) (elementId : String) : Option String :=
  match m with
  | .blank => none
  | .picker _ _ relType relNotes =>
    if elementId = "rel-type" then some relType
    else if elementId = "rel-notes" then some relNotes
    else none
  | .wizard _ _ selectors =>
    (selectors.find? (fun p => decide (p.1 = elementId))).map (fun p => p.2)

/-- The globals of the script and the parts of the page it writes. -/
structure App where
  db : Db
  cy : List Ele
  isEditMode : Bool
  selectedSource : Option Val
  editStatus : String × String
  modal : Modal
  modalHidden : Bool
  downloads : List Db
  deriving DecidableEq, Repr

/-- State a handler leaves behind, and the error that stopped it, if any. -/
structure Outcome where
  state : App
  error : Option Err
  deriving DecidableEq, Repr

/-- The function `initializeGraph`: a fresh graph holding the elements, no classes set.
Style sheet and layout are left out, and so is the renderer's own vetting of elements. -/
def initializeGraph (app : App) (els : Elements) : App :=
  { app with cy := els.nodes.map (fun d => ⟨.node d, []⟩) ++
                   els.edges.map (fun d => ⟨.edge d, []⟩) }

/-- The function `closeModal`. -/
def closeModal (app : App) : App := { app with modalHidden := true }

/-- The function `showRelationshipPicker`, called with the ids of the two nodes:
`neutral` is the selected option and the notes are empty.  Of the markup, the two ids
written into the Save button and the two field values are kept. -/
def showRelationshipPicker (app : App) (source target : Val) : App :=
  { app with
    modal := .picker source.toJsString target.toJsString "neutral" ""
    modalHidden := false }

/-- The function `handleNodeClick`, called with the id of the tapped node. -/
def handleNodeClick (app : App) (node : Val) : App :=
  if app.isEditMode then
    match app.selectedSource with
    | none =>
      { app with selectedSource := some node, cy := addClass app.cy [node] "node-selected" }
    | some source =>
      let app1 := showRelationshipPicker app source node
      { app1 with cy := removeClass app1.cy [source] ["node-selected"], selectedSource := none }
  else
    let cy1 := removeClass app.cy (elements app.cy) ["edge-highlighted", "node-highlighted", "dimmed"]
    let connected := connectedNodes cy1 (connectedEdges cy1 node) ++ [node]
    let cy2 := addClass cy1 (without (elements cy1) connected) "dimmed"
    let cy3 := addClass cy2 [node] "node-highlighted"
    let cy4 := addClass cy3 (connectedEdges cy3 node) "edge-highlighted"
    { app with cy := cy4 }

/-- The function `toggleEditMode`. -/
def toggleEditMode (app : App) : App :=
  let isEditMode := !app.isEditMode
  let app1 := { app with
    isEditMode := isEditMode
    editStatus := (if isEditMode then "EDIT MODE" else "View Mode",
                   if isEditMode then "#d00" else "#090") }
  match app1.selectedSource with
  | none => app1
  | some source =>
    if !isEditMode then
      { app1 with cy := removeClass app1.cy [source] ["node-selected"], selectedSource := none }
    else app1

/-- The function `downloadDatabase`: the exported image is handed to the user. -/
def downloadDatabase (app : App) : App :=
  { app with downloads := app.downloads ++ [app.db] }

/-- The function `saveRelationship`. -/
def saveRelationship (app : App) (sourceId targetId : String) : Outcome :=
  match getElementValue app.modal "rel-type" with
  | none => ⟨app, some .typeError⟩
  | some type =>
    match getElementValue app.modal "rel-notes" with
    | none => ⟨app, some .typeError⟩
    | some notes =>
      let strength := RELATIONSHIP_SCALE type
      match runInsertOrReplace app.db sourceId targetId type strength notes with
      | .error e => ⟨app, some e⟩
      | .ok db1 =>
        let app1 := closeModal { app with db := db1 }
        match loadNetworkData app1.db with
        | .error e => ⟨app1, some e⟩
        | .ok els => ⟨initializeGraph app1 els, none⟩

/-! ## Character wizard -/

/-- The class `\w` of the regular expression. -/
def isWordChar (c : Char) : Bool := c.isAlphanum || c == '_'

/-- Lower-case form of one character.  Besides `A`–`Z`, only the Kelvin sign and the
dotted capital I have a lower-case form containing a word character; every other
character is kept, because its lower-case form is as much a non-word character as it is
itself and the replacement below does not tell the two apart. -/
def lowerChar (c : Char) : List Char :=
  if c.isUpper then [c.toLower]
  else if c = Char.ofNat 0x212A then ['k']
  else if c = Char.ofNat 0x0130 then ['i', Char.ofNat 0x0307]
  else [c]

/-- The call `name.toLowerCase()`. -/
def toLowerCase (s : List Char) : List Char := s.flatMap lowerChar

/-- Scanner for `replace(/\W+/g, '_')`; the flag says that the previous character was
taken by the match in progress, whose `_` is already written. -/
def replaceScan : Bool → List Char → List Char
  | _, [] => []
  | inMatch, c :: cs =>
    if isWordChar c then c :: replaceScan false cs
    else if inMatch then replaceScan true cs
    else '_' :: replaceScan true cs

/-- The call `s.replace(/\W+/g, '_')`. -/
def replaceNonWord (s : List Char) : List Char := replaceScan false s

/-- The id computed in `addCharacterWizard`: `name.toLowerCase().replace(/\W+/g, '_')`.
A character outside the basic plane is two code units in the script and one character
here; either way it is non-word and lies within a single run. -/
def deriveId (name : String) : String :=
  String.mk (replaceNonWord (toLowerCase name.data))

/-- The function `addCharacterWizard`; `name` and `color` are the answers to the two
prompts (`none` for a dismissed prompt). -/
def addCharacterWizard (app : App) (name color : Option String) : Outcome :=
  match name with
  | none => ⟨app, none⟩
  | some name =>
    if name = "" then ⟨app, none⟩
    else
      let colorVal : Val := match color with
        | none => .null
        | some c => .str c
      let id := deriveId name
      match runInsertCharacter app.db id name colorVal with
      | .error e => ⟨app, some e⟩
      | .ok db1 =>
        let app1 := { app with db := db1 }
        match firstValues (exec (otherCharacters app1.db id)) with
        | .error e => ⟨app1, some e⟩
        | .ok chars =>
          ⟨{ app1 with
              modal := .wizard id name (chars.map (fun p => ("rel-" ++ p.1, "neutral")))
              modalHidden := false }, none⟩

/-- The loop body of `completeWizard` over the remaining rows: the first failing
statement stops the loop and keeps what was inserted before it. -/
def insertOutgoing (modal : Modal) (id : String) : List String → Db → Db × Option Err
  | [], db => (db, none)
  | targetId :: rest, db =>
    match getElementValue modal ("rel-" ++ targetId) with
    | none => (db, some .typeError)
    | some type =>
      let strength := RELATIONSHIP_SCALE type
      match runInsert db id targetId type strength with
      | .error e => (db, some e)
      | .ok db1 => insertOutgoing modal id rest db1

/-- The function `completeWizard`. -/
def completeWizard (app : App) (id : String) : Outcome :=
  match firstValues (exec (otherIds app.db id)) with
  | .error e => ⟨app, some e⟩
  | .ok chars =>
    match insertOutgoing app.modal id chars app.db with
    | (db1, some e) => ⟨{ app with db := db1 }, some e⟩
    | (db1, none) => ⟨downloadDatabase (closeModal { app with db := db1 }), none⟩

/-- Start of the script (`init`): the snapshot is loaded, the graph is drawn from the
projection and the handlers are attached.  `page` supplies the parts of the document the
script finds in place (status line, modal). -/
def init (page : App) (db : Db) : Except Err App :=
  match loadNetworkData db with
  | .error e => .error e
  | .ok els =>
    .ok (initializeGraph
      { page with db := db, isEditMode := false, selectedSource := none, downloads := [] } els)

/-- User gestures on the page outside the wizard. -/
inductive Event where
  | tap (node : Val)
  | toggle
  | pickType (type : String)
  | writeNotes (notes : String)
  | save
  | cancel
  deriving DecidableEq, Repr

/-- Dispatch of one gesture to its handler.  A tap reaches `handleNodeClick` only for a
node of the rendered graph; the picker's fields and buttons exist only while the picker
is shown, and its selector offers the seven options. -/
def step (app : App) : Event → App
  | .tap node =>
    if app.cy.any (fun e => e.isNode && decide (e.id = node)) then handleNodeClick app node
    else app
  | .toggle => toggleEditMode app
  | .pickType type =>
    match app.modal, app.modalHidden with
    | .picker s t _ notes, false =>
      if type ∈ relationshipTypes then { app with modal := .picker s t type notes } else app
    | _, _ => app
  | .writeNotes notes =>
    match app.modal, app.modalHidden with
    | .picker s t type _, false => { app with modal := .picker s t type notes }
    | _, _ => app
  | .save =>
    match app.modal, app.modalHidden with
    | .picker s t _ _, false => (saveRelationship app s t).state
    | _, _ => app
  | .cancel =>
    match app.modal, app.modalHidden with
    | .picker _ _ _ _, false => closeModal app
    | _, _ => app

/-- The state after a sequence of gestures. -/
def run (app : App) (events : List Event) : App := events.foldl step app

/-! ## Predicates on the store and call sequences -/

/-- No two rows hold the same ordered `(source_id, target_id)` pair. -/
def PairsUnique (rs : List Relationship) : Prop :=
  rs.Pairwise (fun a b => ¬ (a.source_id = b.source_id ∧ a.target_id = b.target_id))

instance (rs : List Relationship) : Decidable (PairsUnique rs) := by
  unfold PairsUnique
  infer_instance

/-- A call of one of the two writers, with the content the modal has when it is made. -/
inductive Call where
  | save (modal : Modal) (sourceId targetId : String)
  | complete (modal : Modal) (id : String)
  deriving DecidableEq, Repr

/-- The state after the call. -/
def Call.apply (app : App) : Call → App
  | .save modal sourceId targetId =>
    (saveRelationship { app with modal := modal } sourceId targetId).state
  | .complete modal id => (completeWizard { app with modal := modal } id).state

/-! ## Wizard states used below -/

/-- Value of the wizard selector of character `o` (empty when there is none). -/
def selectorValue (modal : Modal) (o : String) : String :=
  (getElementValue modal ("rel-" ++ o)).getD ""

/-- The columns of a row other than the id the store assigned. -/
def Relationship.fields (r : Relationship) : String × String × String × Val × Val :=
  (r.source_id, r.target_id, r.type, r.strength, r.notes)

/-- Store with an active `alice`, an inactive `zed` and the new `carol`. -/
def storeWithInactive : Db :=
  { schema := ⟨true, true, .null, .num 1, .null⟩
    characters :=
      [⟨"alice", "Alice", .str "#f00", .null, .num 1⟩,
       ⟨"zed", "Zed", .str "#00f", .null, .num 0⟩,
       ⟨"carol", "Carol", .str "#fff", .null, .num 1⟩]
    relationships := [] }

/-- The wizard for `carol` over `storeWithInactive`, `alice` set to `likes`. -/
def wizardWithInactive : App :=
  { db := storeWithInactive, cy := [], isEditMode := false, selectedSource := none,
    editStatus := ("View Mode", "#090"),
    modal := .wizard "carol" "Carol" [("rel-alice", "likes"), ("rel-zed", "neutral")],
    modalHidden := false, downloads := [] }

/-- Store with active `alice` and `bob` and the new `carol`. -/
def storeAliceBobCarol : Db :=
  { schema := ⟨true, true, .null, .num 1, .null⟩
    characters :=
      [⟨"alice", "Alice", .str "#f00", .null, .num 1⟩,
       ⟨"bob", "Bob", .str "#0f0", .null, .num 1⟩,
       ⟨"carol", "Carol", .str "#fff", .null, .num 1⟩]
    relationships := [] }

/-- The wizard for `carol`: every selector set to `likes`, then `bob` to `hates`. -/
def wizardAliceBob : App :=
  { db := storeAliceBobCarol, cy := [], isEditMode := false, selectedSource := none,
    editStatus := ("View Mode", "#090"),
    modal := .wizard "carol" "Carol" [("rel-alice", "likes"), ("rel-bob", "hates")],
    modalHidden := false, downloads := [] }

/-! ## Page states over a three-node chain -/

/-- Graph with nodes `a`, `b`, `c` and edges `e1 : a → b`, `e2 : b → c`, no class set. -/
def chainGraph : List Ele :=
  [⟨.node ⟨.str "a", .str "A", .str "#f00", .null⟩, []⟩,
   ⟨.node ⟨.str "b", .str "B", .str "#0f0", .null⟩, []⟩,
   ⟨.node ⟨.str "c", .str "C", .str "#00f", .null⟩, []⟩,
   ⟨.edge ⟨"e1", .str "a", .str "b", .str "likes", .num 1, .null⟩, []⟩,
   ⟨.edge ⟨"e2", .str "b", .str "c", .str "hates", .num (-2), .null⟩, []⟩]

/-- Store behind `chainGraph`. -/
def chainStore : Db :=
  { schema := ⟨true, true, .null, .num 1, .null⟩
    characters :=
      [⟨"a", "A", .str "#f00", .null, .num 1⟩,
       ⟨"b", "B", .str "#0f0", .null, .num 1⟩,
       ⟨"c", "C", .str "#00f", .null, .num 1⟩]
    relationships :=
      [⟨1, "a", "b", "likes", .num 1, .null⟩, ⟨2, "b", "c", "hates", .num (-2), .null⟩] }

/-- The page in View mode showing `chainGraph`, modal hidden. -/
def chainView : App :=
  { db := chainStore, cy := chainGraph, isEditMode := false, selectedSource := none,
    editStatus := ("View Mode", "#090"), modal := .blank, modalHidden := true,
    downloads := [] }

/-- The same page in Edit mode, no source selected. -/
def chainEdit : App := { chainView with isEditMode := true, editStatus := ("EDIT MODE", "#d00") }

/-- The same page with the picker open for `a → b`, `likes_a_lot` chosen. -/
def chainPicker : App :=
  { chainEdit with modal := .picker "a" "b" "likes_a_lot" "old friends", modalHidden := false }

/-- A pending source exists only in Edit mode. -/
def PendingOnlyInEdit (app : App) : Prop :=
  app.selectedSource ≠ none → app.isEditMode = true

/-- The state the script starts in over `chainStore`. -/
def chainStart : App :=
  match init chainView chainStore with
  | .ok app => app
  | .error _ => chainView

/-- The store of `chainStore` in a snapshot that declares no key on the pair. -/
def chainStoreNoKey : Db :=
  { chainStore with schema := ⟨false, true, .null, .num 1, .null⟩ }

/-- The picker of `chainPicker` with a type that is not in the scale. -/
def chainPickerAdores : App :=
  { chainPicker with modal := .picker "a" "b" "adores" "since the voyage" }

/-! ## Stores used for the projection -/

/-- The spec's wording of the replacement: the string is cut into its maximal runs of
characters of one kind (word or non-word) and every non-word run becomes a single `_`. -/
def collapseNonWordRuns (s : List Char) : List Char :=
  ((s.splitBy (fun a b => isWordChar a == isWordChar b)).map
    (fun r => if r.all (fun c => !isWordChar c) then ['_'] else r)).flatten

/-- A character of `[a-z0-9_]`. -/
def isIdChar (c : Char) : Bool := c.isLower || c.isDigit || c == '_'

/-! ## Facts about the scale and the two insert statements -/

theorem scale_of_type {ty : String} (h : ty ∈ relationshipTypes) :
    ∃ k : Int, -3 ≤ k ∧ k ≤ 3 ∧ RELATIONSHIP_SCALE ty = .num k := by
  simp only [relationshipTypes, List.mem_cons, List.mem_singleton, List.not_mem_nil,
    or_false] at h
  rcases h with h | h | h | h | h | h | h <;> subst h
  · exact ⟨-3, by decide, by decide, by decide⟩
  · exact ⟨-2, by decide, by decide, by decide⟩
  · exact ⟨-1, by decide, by decide, by decide⟩
  · exact ⟨0, by decide, by decide, by decide⟩
  · exact ⟨1, by decide, by decide, by decide⟩
  · exact ⟨2, by decide, by decide, by decide⟩
  · exact ⟨3, by decide, by decide, by decide⟩

theorem bindable_scale_iff (ty : String) :
    bindable (RELATIONSHIP_SCALE ty) = true ↔ ty ∈ relationshipTypes := by
  constructor
  · intro h
    unfold RELATIONSHIP_SCALE at h
    simp only [relationshipTypes, List.mem_cons, List.mem_singleton, List.not_mem_nil,
      or_false]
    split_ifs at h <;> simp_all [bindable]
  · intro h
    obtain ⟨k, _, _, hk⟩ := scale_of_type h
    simp [hk, bindable]

theorem initializeGraph_db (app : App) (els : Elements) :
    (initializeGraph app els).db = app.db := rfl

/-- The store a successful statement of `saveRelationship` leaves, whatever the
re-rendering after it does. -/
theorem saveRelationship_db_of_ok {app : App} {s t ty notes : String} {db1 : Db}
    (hm : getElementValue app.modal "rel-type" = some ty)
    (hn : getElementValue app.modal "rel-notes" = some notes)
    (hrun : runInsertOrReplace app.db s t ty (RELATIONSHIP_SCALE ty) notes = .ok db1) :
    (saveRelationship app s t).state.db = db1 := by
  unfold saveRelationship
  simp only [hm, hn, hrun]
  cases loadNetworkData (closeModal { app with db := db1 }).db <;> rfl

/-- Either `saveRelationship` leaves the whole state as it was and reports an error, or
its statement ran. -/
theorem saveRelationship_cases (app : App) (s t : String) :
    ((saveRelationship app s t).state = app ∧ (saveRelationship app s t).error ≠ none) ∨
    ∃ ty notes db1, getElementValue app.modal "rel-type" = some ty ∧
      getElementValue app.modal "rel-notes" = some notes ∧
      runInsertOrReplace app.db s t ty (RELATIONSHIP_SCALE ty) notes = .ok db1 ∧
      (saveRelationship app s t).state.db = db1 := by
  cases hm : getElementValue app.modal "rel-type" with
  | none => left; simp [saveRelationship, hm]
  | some ty =>
    cases hn : getElementValue app.modal "rel-notes" with
    | none => left; simp [saveRelationship, hm, hn]
    | some notes =>
      cases hrun : runInsertOrReplace app.db s t ty (RELATIONSHIP_SCALE ty) notes with
      | error e => left; simp [saveRelationship, hm, hn, hrun]
      | ok db1 =>
        right
        exact ⟨ty, notes, db1, rfl, rfl, hrun, saveRelationship_db_of_ok hm hn hrun⟩

theorem runInsertOrReplace_ok {db db1 : Db} {s t ty notes : String} {v : Val}
    (h : runInsertOrReplace db s t ty v notes = .ok db1) :
    bindable v = true ∧
    db1 = { db with relationships :=
      (if db.schema.pairKey then db.relationships.filter (fun r => !r.hasPair s t)
       else db.relationships) ++ [⟨nextRowid db.relationships, s, t, ty, v, .str notes⟩] } := by
  unfold runInsertOrReplace at h
  by_cases hb : bindable v = true
  · rw [if_pos hb] at h
    exact ⟨hb, (Except.ok.inj h).symm⟩
  · rw [if_neg hb] at h
    cases h

theorem runInsert_ok {db db1 : Db} {s t ty : String} {v : Val}
    (h : runInsert db s t ty v = .ok db1) :
    bindable v = true ∧
    (db.schema.pairKey && db.relationships.any (fun r => r.hasPair s t)) = false ∧
    db1 = { db with relationships := db.relationships ++
      [⟨nextRowid db.relationships, s, t, ty, v, db.schema.notesDefault⟩] } := by
  unfold runInsert at h
  by_cases hb : bindable v = true
  · rw [if_pos hb] at h
    cases hc : (db.schema.pairKey && db.relationships.any (fun r => r.hasPair s t)) with
    | true => rw [hc] at h; simp at h
    | false =>
      rw [hc] at h
      exact ⟨hb, rfl, (Except.ok.inj h).symm⟩
  · rw [if_neg hb] at h
    cases h

/-- Every row present after the statement was there before or is the row just bound. -/
theorem runInsertOrReplace_mem {db db1 : Db} {s t ty notes : String} {v : Val}
    (h : runInsertOrReplace db s t ty v notes = .ok db1) {r : Relationship}
    (hr : r ∈ db1.relationships) :
    r ∈ db.relationships ∨ r = ⟨nextRowid db.relationships, s, t, ty, v, .str notes⟩ := by
  obtain ⟨_, rfl⟩ := runInsertOrReplace_ok h
  simp only [List.mem_append, List.mem_singleton] at hr
  rcases hr with hr | hr
  · left
    split_ifs at hr
    · exact (List.mem_filter.mp hr).1
    · exact hr
  · exact Or.inr hr

/-- Rows written by the wizard loop carry an enumerated type and its scale value. -/
theorem insertOutgoing_mem (modal : Modal) (id : String) (targets : List String) (db : Db)
    {r : Relationship} (hr : r ∈ (insertOutgoing modal id targets db).1.relationships) :
    r ∈ db.relationships ∨
      (r.type ∈ relationshipTypes ∧ r.strength = RELATIONSHIP_SCALE r.type ∧
        r.source_id = id ∧ r.target_id ∈ targets ∧
        getElementValue modal ("rel-" ++ r.target_id) = some r.type) := by
  induction targets generalizing db with
  | nil => exact Or.inl hr
  | cons o rest ih =>
    unfold insertOutgoing at hr
    cases hsel : getElementValue modal ("rel-" ++ o) with
    | none => simp only [hsel] at hr; exact Or.inl hr
    | some ty =>
      simp only [hsel] at hr
      cases hrun : runInsert db id o ty (RELATIONSHIP_SCALE ty) with
      | error e => simp only [hrun] at hr; exact Or.inl hr
      | ok db1 =>
        simp only [hrun] at hr
        obtain ⟨hb, _, rfl⟩ := runInsert_ok hrun
        rcases ih _ hr with h | ⟨h1, h2, h3, h4, h5⟩
        · simp only [List.mem_append, List.mem_singleton] at h
          rcases h with h | h
          · exact Or.inl h
          · right
            subst h
            exact ⟨(bindable_scale_iff ty).mp hb, rfl, rfl, List.mem_cons_self _ _, hsel⟩
        · exact Or.inr ⟨h1, h2, h3, List.mem_cons_of_mem _ h4, h5⟩

theorem completeWizard_db (app : App) (id : String) :
    (completeWizard app id).state.db = app.db ∨
    (completeWizard app id).state.db = (insertOutgoing app.modal id (otherIds app.db id) app.db).1 := by
  unfold completeWizard
  cases hq : firstValues (exec (otherIds app.db id)) with
  | error e => left; rfl
  | ok chars =>
    have hc : chars = otherIds app.db id := by
      unfold exec at hq
      split_ifs at hq with he
      · simp [firstValues] at hq
      · simp only [firstValues, Except.ok.injEq] at hq; exact hq.symm
    subst hc
    right
    simp only
    rcases hio : insertOutgoing app.modal id (otherIds app.db id) app.db with ⟨db1, _ | e⟩ <;> rfl

theorem hasPair_iff (s t : String) (r : Relationship) :
    r.hasPair s t = true ↔ r.source_id = s ∧ r.target_id = t := by
  simp [Relationship.hasPair]

theorem runInsertOrReplace_schema {db db1 : Db} {s t ty notes : String} {v : Val}
    (h : runInsertOrReplace db s t ty v notes = .ok db1) : db1.schema = db.schema := by
  obtain ⟨_, rfl⟩ := runInsertOrReplace_ok h
  rfl

theorem runInsert_schema {db db1 : Db} {s t ty : String} {v : Val}
    (h : runInsert db s t ty v = .ok db1) : db1.schema = db.schema := by
  obtain ⟨_, _, rfl⟩ := runInsert_ok h
  rfl

theorem runInsertOrReplace_unique {db db1 : Db} {s t ty notes : String} {v : Val}
    (hkey : db.schema.pairKey = true) (hu : PairsUnique db.relationships)
    (h : runInsertOrReplace db s t ty v notes = .ok db1) : PairsUnique db1.relationships := by
  obtain ⟨_, rfl⟩ := runInsertOrReplace_ok h
  simp only [hkey, if_true, PairsUnique]
  rw [List.pairwise_append]
  refine ⟨hu.sublist (List.filter_sublist _), List.pairwise_singleton _ _, ?_⟩
  intro a ha b hb hab
  rw [List.mem_singleton] at hb
  subst hb
  have hna := (List.mem_filter.mp ha).2
  have : a.hasPair s t = true := (hasPair_iff s t a).mpr hab
  simp [this] at hna

theorem runInsert_unique {db db1 : Db} {s t ty : String} {v : Val}
    (hkey : db.schema.pairKey = true) (hu : PairsUnique db.relationships)
    (h : runInsert db s t ty v = .ok db1) : PairsUnique db1.relationships := by
  obtain ⟨_, hc, rfl⟩ := runInsert_ok h
  simp only [hkey, Bool.true_and] at hc
  simp only [PairsUnique]
  rw [List.pairwise_append]
  refine ⟨hu, List.pairwise_singleton _ _, ?_⟩
  intro a ha b hb hab
  rw [List.mem_singleton] at hb
  subst hb
  have : db.relationships.any (fun r => r.hasPair s t) = true :=
    List.any_eq_true.mpr ⟨a, ha, (hasPair_iff s t a).mpr hab⟩
  rw [hc] at this
  cases this

theorem insertOutgoing_unique (modal : Modal) (id : String) (targets : List String) (db : Db)
    (hkey : db.schema.pairKey = true) (hu : PairsUnique db.relationships) :
    (insertOutgoing modal id targets db).1.schema = db.schema ∧
    PairsUnique (insertOutgoing modal id targets db).1.relationships := by
  induction targets generalizing db with
  | nil => exact ⟨rfl, hu⟩
  | cons o rest ih =>
    cases hsel : getElementValue modal ("rel-" ++ o) with
    | none => simp only [insertOutgoing, hsel]; exact ⟨trivial, hu⟩
    | some ty =>
      cases hrun : runInsert db id o ty (RELATIONSHIP_SCALE ty) with
      | error e => simp only [insertOutgoing, hsel, hrun]; exact ⟨trivial, hu⟩
      | ok db1 =>
        have hs := runInsert_schema hrun
        have := ih db1 (hs ▸ hkey) (runInsert_unique hkey hu hrun)
        simp only [insertOutgoing, hsel, hrun]
        exact ⟨this.1.trans hs, this.2⟩

theorem saveRelationship_unique (app : App) (s t : String)
    (hkey : app.db.schema.pairKey = true) (hu : PairsUnique app.db.relationships) :
    (saveRelationship app s t).state.db.schema = app.db.schema ∧
    PairsUnique (saveRelationship app s t).state.db.relationships := by
  rcases saveRelationship_cases app s t with ⟨h, _⟩ | ⟨ty, notes, db1, _, _, hrun, hdb⟩
  · rw [h]; exact ⟨rfl, hu⟩
  · rw [hdb]; exact ⟨runInsertOrReplace_schema hrun, runInsertOrReplace_unique hkey hu hrun⟩

theorem completeWizard_unique (app : App) (id : String)
    (hkey : app.db.schema.pairKey = true) (hu : PairsUnique app.db.relationships) :
    (completeWizard app id).state.db.schema = app.db.schema ∧
    PairsUnique (completeWizard app id).state.db.relationships := by
  rcases completeWizard_db app id with h | h
  · rw [h]; exact ⟨rfl, hu⟩
  · rw [h]; exact insertOutgoing_unique _ _ _ _ hkey hu

theorem calls_unique (calls : List Call) (app : App)
    (hkey : app.db.schema.pairKey = true) (hu : PairsUnique app.db.relationships) :
    PairsUnique (calls.foldl Call.apply app).db.relationships := by
  induction calls generalizing app with
  | nil => exact hu
  | cons c rest ih =>
    rw [List.foldl_cons]
    cases c with
    | save modal s t =>
      have := saveRelationship_unique { app with modal := modal } s t hkey hu
      exact ih _ ((congrArg Schema.pairKey this.1).trans hkey) this.2
    | complete modal id =>
      have := completeWizard_unique { app with modal := modal } id hkey hu
      exact ih _ ((congrArg Schema.pairKey this.1).trans hkey) this.2

/-- Under a declared pair key, a successful `saveRelationship` leaves exactly the row it
wrote for the pair. -/
theorem saveRelationship_pair_rows (app : App) (s t ty notes : String)
    (hkey : app.db.schema.pairKey = true) (hty : ty ∈ relationshipTypes)
    (hm : getElementValue app.modal "rel-type" = some ty)
    (hn : getElementValue app.modal "rel-notes" = some notes) :
    (saveRelationship app s t).state.db.relationships.filter (fun r => r.hasPair s t) =
      [⟨nextRowid app.db.relationships, s, t, ty, RELATIONSHIP_SCALE ty, .str notes⟩] := by
  have hb : bindable (RELATIONSHIP_SCALE ty) = true := (bindable_scale_iff ty).mpr hty
  have hrun : runInsertOrReplace app.db s t ty (RELATIONSHIP_SCALE ty) notes =
      .ok { app.db with relationships :=
        (if app.db.schema.pairKey then app.db.relationships.filter (fun r => !r.hasPair s t)
         else app.db.relationships) ++
          [⟨nextRowid app.db.relationships, s, t, ty, RELATIONSHIP_SCALE ty, .str notes⟩] } := by
    unfold runInsertOrReplace
    rw [if_pos hb]
  rw [saveRelationship_db_of_ok hm hn hrun]
  simp only [hkey, if_true, List.filter_append, List.filter_filter]
  have h1 : List.filter (fun r => r.hasPair s t && !r.hasPair s t) app.db.relationships = [] := by
    rw [List.filter_eq_nil_iff]
    intro a _
    simp
  rw [h1]
  simp [Relationship.hasPair]

/-- Without a declared pair key `INSERT OR REPLACE` has nothing to replace: two saves of
`a → b` over `chainStoreNoKey` leave three rows for the pair. -/
theorem saves_accumulate_without_pair_key :
    ((saveRelationship
        { (saveRelationship
            { chainPicker with db := chainStoreNoKey, modal := .picker "a" "b" "likes" "first" }
            "a" "b").state with
          modal := .picker "a" "b" "hates" "second" } "a" "b").state.db.relationships.filter
      (fun r => r.hasPair "a" "b")) =
      [⟨1, "a", "b", "likes", .num 1, .null⟩,
       ⟨3, "a", "b", "likes", .num 1, .str "first"⟩,
       ⟨4, "a", "b", "hates", .num (-2), .str "second"⟩] := by
  decide

/-- C2. In a store whose relationships table declares the ordered pair as a key, two
`saveRelationship` calls for `(S, T)` leave exactly one row for `(S, T)`, carrying the
type, strength and notes of the second call (whatever the first call selected); and no sequence of `saveRelationship` and
`completeWizard` calls leaves two rows with the same ordered pair. -/
theorem one_row_per_ordered_pair (app : App) (S T t1 n1 t2 n2 : String) (calls : List Call)
    (hkey : app.db.schema.pairKey = true) (hu : PairsUnique app.db.relationships)
    (h2 : t2 ∈ relationshipTypes) :
    (∃ id, ((saveRelationship
          { (saveRelationship { app with modal := .picker S T t1 n1 } S T).state with
            modal := .picker S T t2 n2 } S T).state.db.relationships.filter
        (fun r => r.hasPair S T)) = [⟨id, S, T, t2, RELATIONSHIP_SCALE t2, .str n2⟩]) ∧
    PairsUnique (calls.foldl Call.apply app).db.relationships := by
  refine ⟨⟨_, saveRelationship_pair_rows _ S T t2 n2 ?_ h2 rfl rfl⟩, calls_unique calls app hkey hu⟩
  exact (congrArg Schema.pairKey
    (saveRelationship_unique { app with modal := .picker S T t1 n1 } S T hkey hu).1).trans hkey

/-! ## The wizard's outgoing relationships -/

theorem insertOutgoing_ok (modal : Modal) (c : String) (targets : List String) (db : Db)
    (hsel : ∀ o ∈ targets, ∃ ty ∈ relationshipTypes,
      getElementValue modal ("rel-" ++ o) = some ty)
    (hnodup : targets.Nodup)
    (hfresh : ∀ r ∈ db.relationships, ¬ (r.source_id = c ∧ r.target_id ∈ targets)) :
    ∃ news : List Relationship,
      insertOutgoing modal c targets db =
        ({ db with relationships := db.relationships ++ news }, none) ∧
      news.map Relationship.fields = targets.map (fun o =>
        (c, o, selectorValue modal o, RELATIONSHIP_SCALE (selectorValue modal o),
          db.schema.notesDefault)) := by
  induction targets generalizing db with
  | nil => exact ⟨[], by simp [insertOutgoing], rfl⟩
  | cons o rest ih =>
    obtain ⟨ty, hty, hty2⟩ := hsel o (List.mem_cons_self _ _)
    have hb : bindable (RELATIONSHIP_SCALE ty) = true := (bindable_scale_iff ty).mpr hty
    have hno : db.relationships.any (fun r => r.hasPair c o) = false := by
      rw [Bool.eq_false_iff]
      intro h
      obtain ⟨r, hr, hp⟩ := List.any_eq_true.mp h
      have := (hasPair_iff c o r).mp hp
      exact hfresh r hr ⟨this.1, this.2 ▸ List.mem_cons_self _ _⟩
    have hrun : runInsert db c o ty (RELATIONSHIP_SCALE ty) =
        .ok { db with relationships := db.relationships ++
          [⟨nextRowid db.relationships, c, o, ty, RELATIONSHIP_SCALE ty,
            db.schema.notesDefault⟩] } := by
      unfold runInsert
      rw [if_pos hb, hno]
      simp
    have hnd := List.nodup_cons.mp hnodup
    obtain ⟨news, hn1, hn2⟩ := ih
      { db with relationships := db.relationships ++
          [⟨nextRowid db.relationships, c, o, ty, RELATIONSHIP_SCALE ty,
            db.schema.notesDefault⟩] }
      (fun o' ho' => hsel o' (List.mem_cons_of_mem _ ho')) hnd.2
      (by
        intro r hr hcontra
        simp only [List.mem_append, List.mem_singleton] at hr
        rcases hr with hr | hr
        · exact hfresh r hr ⟨hcontra.1, List.mem_cons_of_mem _ hcontra.2⟩
        · subst hr
          exact hnd.1 hcontra.2)
    refine ⟨⟨nextRowid db.relationships, c, o, ty, RELATIONSHIP_SCALE ty,
      db.schema.notesDefault⟩ :: news, ?_, ?_⟩
    · simp only [insertOutgoing, hty2, hrun, hn1, List.append_assoc, List.singleton_append]
    · simp only [List.map_cons, hn2, Relationship.fields, selectorValue, hty2, Option.getD_some]

theorem otherIds_ne (db : Db) (c : String) {o : String} (h : o ∈ otherIds db c) : o ≠ c := by
  simp only [otherIds, List.mem_map, List.mem_filter, decide_eq_true_eq] at h
  obtain ⟨ch, ⟨_, hne⟩, rfl⟩ := h
  exact hne

/-- C3, as the code has it.  `completeWizard(c)` appends, in table order, exactly one
row `c → o` for every other character row `o`, active or not, with the type held by the
selector of `o`, the scale value of that type and the default notes; it adds no row
whose target is `c`; the call completes (modal closed, image handed over for download)
when there is at least one other character. -/
theorem completeWizard_one_row_per_other_character (app : App) (c : String)
    (hsel : ∀ o ∈ otherIds app.db c, ∃ ty ∈ relationshipTypes,
      getElementValue app.modal ("rel-" ++ o) = some ty)
    (hnodup : (otherIds app.db c).Nodup)
    (hfresh : ∀ r ∈ app.db.relationships, r.source_id ≠ c) :
    ∃ news : List Relationship,
      (completeWizard app c).state.db.relationships = app.db.relationships ++ news ∧
      news.map Relationship.fields = (otherIds app.db c).map (fun o =>
        (c, o, selectorValue app.modal o, RELATIONSHIP_SCALE (selectorValue app.modal o),
          app.db.schema.notesDefault)) ∧
      (∀ r ∈ news, r.target_id ≠ c) ∧
      (otherIds app.db c ≠ [] →
        (completeWizard app c).error = none ∧
        (completeWizard app c).state.modalHidden = true ∧
        (completeWizard app c).state.downloads =
          app.downloads ++ [(completeWizard app c).state.db]) := by
  obtain ⟨news, hn1, hn2⟩ := insertOutgoing_ok app.modal c (otherIds app.db c) app.db hsel hnodup
    (fun r hr h => hfresh r hr h.1)
  have htarget : ∀ r ∈ news, r.target_id ≠ c := by
    intro r hr
    have : r.fields ∈ news.map Relationship.fields := List.mem_map_of_mem _ hr
    rw [hn2, List.mem_map] at this
    obtain ⟨o, ho, hf⟩ := this
    have : r.target_id = o := by
      have := congrArg (fun p => p.2.1) hf
      simpa [Relationship.fields] using this.symm
    rw [this]
    exact otherIds_ne _ _ ho
  cases hl : otherIds app.db c with
  | nil =>
    rw [hl] at hn2
    have : news = [] := by simpa using hn2
    subst this
    refine ⟨[], ?_, by simp, by simp, by simp⟩
    simp [completeWizard, exec, hl, firstValues]
  | cons o rest =>
    rw [hl] at hn1 hn2
    have hst : completeWizard app c =
        ⟨downloadDatabase (closeModal
          { app with db := { app.db with relationships := app.db.relationships ++ news } }),
          none⟩ := by
      simp only [completeWizard, exec, hl, firstValues, List.isEmpty_cons, Bool.false_eq_true,
        if_false, hn1]
    refine ⟨news, by rw [hst]; rfl, hn2, htarget, fun _ => ?_⟩
    rw [hst]
    exact ⟨rfl, rfl, rfl⟩

/-- Witness for `completeWizard_one_row_per_other_character`: the scenario with active
`alice` and `bob`, selectors `likes` and `hates`, new character `carol`. -/
theorem completeWizard_one_row_per_other_character_witness :
    (completeWizard wizardAliceBob "carol").state.db.relationships =
      [⟨1, "carol", "alice", "likes", .num 1, .null⟩,
       ⟨2, "carol", "bob", "hates", .num (-2), .null⟩] ∧
    ∃ news : List Relationship,
      (completeWizard wizardAliceBob "carol").state.db.relationships =
        wizardAliceBob.db.relationships ++ news ∧
      news.map Relationship.fields = (otherIds wizardAliceBob.db "carol").map (fun o =>
        ("carol", o, selectorValue wizardAliceBob.modal o,
          RELATIONSHIP_SCALE (selectorValue wizardAliceBob.modal o),
          wizardAliceBob.db.schema.notesDefault)) ∧
      (∀ r ∈ news, r.target_id ≠ "carol") ∧
      (otherIds wizardAliceBob.db "carol" ≠ [] →
        (completeWizard wizardAliceBob "carol").error = none ∧
        (completeWizard wizardAliceBob "carol").state.modalHidden = true ∧
        (completeWizard wizardAliceBob "carol").state.downloads =
          wizardAliceBob.downloads ++ [(completeWizard wizardAliceBob "carol").state.db]) :=
  ⟨by decide,
   completeWizard_one_row_per_other_character wizardAliceBob "carol"
    (by decide) (by decide) (by decide)⟩

/-- The wizard table built by `addCharacterWizard` has a selector for the inactive `zed`
as well: the query behind it does not look at `is_active`. -/
theorem addCharacterWizard_offers_inactive_character :
    (addCharacterWizard
        { wizardWithInactive with
          db := { storeWithInactive with characters := storeWithInactive.characters.take 2 },
          modal := .blank, modalHidden := true }
        (some "Carol") (some "#fff")).state.modal =
      .wizard "carol" "Carol" [("rel-alice", "neutral"), ("rel-zed", "neutral")] := by
  decide

/-- C3 fails as stated: over a store holding the inactive character `zed`,
`completeWizard("carol")` also writes the row `carol → zed`. -/
theorem completeWizard_writes_to_inactive_character :
    (storeWithInactive.characters.filter (fun ch => decide (ch.id = "zed"))).map
        (fun ch => ch.is_active) = [.num 0] ∧
    activeCharacterRows storeWithInactive =
      [[.str "alice", .str "Alice", .str "#f00", .null, .num 1],
       [.str "carol", .str "Carol", .str "#fff", .null, .num 1]] ∧
    (completeWizard wizardWithInactive "carol").state.db.relationships =
      [⟨1, "carol", "alice", "likes", .num 1, .null⟩,
       ⟨2, "carol", "zed", "neutral", .num 0, .null⟩] := by
  decide

/-! ## Taps and toggles -/

theorem hasClass_removeClass (cy : List Ele) (n : Val) (cls : String) :
    hasClass (removeClass cy [n] [cls]) n cls = false := by
  rw [Bool.eq_false_iff]
  intro h
  simp only [hasClass, removeClass, List.any_eq_true, List.mem_map] at h
  obtain ⟨e, ⟨e0, _, rfl⟩, he⟩ := h
  simp only [Bool.and_eq_true, decide_eq_true_eq] at he
  split_ifs at he with hid
  · have := he.2
    simp [List.mem_filter] at this
  · have : e0.id = n := he.1
    exact hid (by simp [this])

theorem handleNodeClick_db (app : App) (n : Val) : (handleNodeClick app n).db = app.db := by
  unfold handleNodeClick
  split
  · cases app.selectedSource <;> rfl
  · rfl

theorem toggleEditMode_db (app : App) : (toggleEditMode app).db = app.db := by
  unfold toggleEditMode
  cases app.selectedSource with
  | none => rfl
  | some src => simp only; split <;> rfl

/-- C5. In Edit mode with no pending selection, tapping `S` and then `T` (also `T = S`)
opens the picker for exactly `(S, T)` with `neutral` preselected and empty notes, leaves
no source selected, leaves `S` without the class `node-selected`, and leaves the store as
it was; between the taps `S` is the pending source. -/
theorem two_taps_open_picker (app : App) (S T : Val)
    (hedit : app.isEditMode = true) (hnone : app.selectedSource = none) :
    (handleNodeClick app S).selectedSource = some S ∧
    (handleNodeClick (handleNodeClick app S) T).modal =
      .picker S.toJsString T.toJsString "neutral" "" ∧
    (handleNodeClick (handleNodeClick app S) T).modalHidden = false ∧
    (handleNodeClick (handleNodeClick app S) T).selectedSource = none ∧
    hasClass (handleNodeClick (handleNodeClick app S) T).cy S "node-selected" = false ∧
    (handleNodeClick (handleNodeClick app S) T).db = app.db ∧
    (handleNodeClick (handleNodeClick app S) T).isEditMode = true := by
  have h1 : handleNodeClick app S =
      { app with selectedSource := some S, cy := addClass app.cy [S] "node-selected" } := by
    unfold handleNodeClick
    rw [if_pos hedit, hnone]
  have h2 : handleNodeClick (handleNodeClick app S) T =
      { showRelationshipPicker (handleNodeClick app S) S T with
        cy := removeClass (addClass app.cy [S] "node-selected") [S] ["node-selected"],
        selectedSource := none } := by
    rw [h1]
    unfold handleNodeClick
    simp only [hedit, if_true]
    rfl
  refine ⟨by rw [h1], ?_, ?_, ?_, ?_, ?_, ?_⟩
  · rw [h2]; rfl
  · rw [h2]; rfl
  · rw [h2]
  · rw [h2]; exact hasClass_removeClass _ _ _
  · rw [handleNodeClick_db, handleNodeClick_db]
  · rw [h2, h1]; exact hedit

/-- Witness for `two_taps_open_picker`: taps on `a` and `b` of `chainGraph`. -/
theorem two_taps_open_picker_witness :
    (chainEdit.isEditMode = true ∧ chainEdit.selectedSource = none) ∧
    (handleNodeClick chainEdit (.str "a")).selectedSource = some (.str "a") ∧
    (handleNodeClick (handleNodeClick chainEdit (.str "a")) (.str "b")).modal =
      .picker "a" "b" "neutral" "" ∧
    (handleNodeClick (handleNodeClick chainEdit (.str "a")) (.str "b")).modalHidden = false ∧
    (handleNodeClick (handleNodeClick chainEdit (.str "a")) (.str "b")).selectedSource = none ∧
    hasClass (handleNodeClick (handleNodeClick chainEdit (.str "a")) (.str "b")).cy (.str "a")
      "node-selected" = false ∧
    (handleNodeClick (handleNodeClick chainEdit (.str "a")) (.str "b")).db = chainEdit.db ∧
    (handleNodeClick (handleNodeClick chainEdit (.str "a")) (.str "b")).isEditMode = true :=
  ⟨⟨rfl, rfl⟩, two_taps_open_picker chainEdit (.str "a") (.str "b") rfl rfl⟩

/-- C4 at a failing input.  In View mode a tap on `a` of `chainGraph` puts `dimmed` on
the edge `e1 : a → b`, which is incident to `a` (it also gets `edge-highlighted`);
`dimmed` lands on every edge and on the nodes that are neither `a` nor a neighbour. -/
theorem view_tap_dims_incident_edge :
    (handleNodeClick chainView (.str "a")).cy.map (fun e => (e.id, e.classes)) =
      [(.str "a", ["node-highlighted"]),
       (.str "b", []),
       (.str "c", ["dimmed"]),
       (.str "e1", ["dimmed", "edge-highlighted"]),
       (.str "e2", ["dimmed"])] := by
  decide

/-- Witness for `one_row_per_ordered_pair`: `a → b` saved as `likes`, then as `hates`,
over a store that already holds a row for `a → b`. -/
theorem one_row_per_ordered_pair_witness :
    (chainView.db.schema.pairKey = true ∧ PairsUnique chainView.db.relationships ∧
      "hates" ∈ relationshipTypes) ∧
    (saveRelationship
        { (saveRelationship { chainView with modal := .picker "a" "b" "likes" "first" }
            "a" "b").state with
          modal := .picker "a" "b" "hates" "second" } "a" "b").state.db.relationships =
      [⟨2, "b", "c", "hates", .num (-2), .null⟩, ⟨4, "a", "b", "hates", .num (-2), .str "second"⟩] ∧
    (∃ id, ((saveRelationship
          { (saveRelationship { chainView with modal := .picker "a" "b" "likes" "first" }
              "a" "b").state with
            modal := .picker "a" "b" "hates" "second" } "a" "b").state.db.relationships.filter
        (fun r => r.hasPair "a" "b")) =
          [⟨id, "a", "b", "hates", RELATIONSHIP_SCALE "hates", .str "second"⟩]) ∧
    PairsUnique (List.foldl Call.apply chainView
      [.save (.picker "a" "b" "likes" "first") "a" "b",
       .complete (.wizard "c" "C" [("rel-a", "likes"), ("rel-b", "neutral")]) "c"]).db.relationships :=
  ⟨⟨rfl, by decide, by decide⟩, by decide,
   one_row_per_ordered_pair chainView "a" "b" "likes" "first" "hates" "second"
    [.save (.picker "a" "b" "likes" "first") "a" "b",
     .complete (.wizard "c" "C" [("rel-a", "likes"), ("rel-b", "neutral")]) "c"]
    rfl (by decide) (by decide)⟩

/-! ## The mode toggle and the pending source -/

theorem saveRelationship_mode (app : App) (s t : String) :
    (saveRelationship app s t).state.selectedSource = app.selectedSource ∧
    (saveRelationship app s t).state.isEditMode = app.isEditMode := by
  unfold saveRelationship
  cases getElementValue app.modal "rel-type" with
  | none => exact ⟨rfl, rfl⟩
  | some ty =>
    cases getElementValue app.modal "rel-notes" with
    | none => exact ⟨rfl, rfl⟩
    | some notes =>
      simp only
      cases runInsertOrReplace app.db s t ty (RELATIONSHIP_SCALE ty) notes with
      | error e => exact ⟨rfl, rfl⟩
      | ok db1 =>
        simp only
        cases loadNetworkData (closeModal { app with db := db1 }).db <;> exact ⟨rfl, rfl⟩

theorem handleNodeClick_mode (app : App) (n : Val) :
    (handleNodeClick app n).isEditMode = app.isEditMode := by
  unfold handleNodeClick
  split
  · cases app.selectedSource <;> rfl
  · rfl

theorem handleNodeClick_view (app : App) (n : Val) (h : app.isEditMode = false) :
    (handleNodeClick app n).selectedSource = app.selectedSource ∧
    (handleNodeClick app n).modal = app.modal ∧
    (handleNodeClick app n).modalHidden = app.modalHidden := by
  unfold handleNodeClick
  simp [h]

theorem toggleEditMode_flip (app : App) :
    (toggleEditMode app).isEditMode = !app.isEditMode := by
  unfold toggleEditMode
  cases app.selectedSource with
  | none => rfl
  | some src => simp only; split <;> rfl

theorem toggleEditMode_modal (app : App) :
    (toggleEditMode app).modal = app.modal ∧
    (toggleEditMode app).modalHidden = app.modalHidden := by
  unfold toggleEditMode
  cases app.selectedSource with
  | none => exact ⟨rfl, rfl⟩
  | some src => simp only; split <;> exact ⟨rfl, rfl⟩

theorem toggleEditMode_leaves_edit (app : App) (h : app.isEditMode = true) :
    (toggleEditMode app).selectedSource = none := by
  unfold toggleEditMode
  cases hs : app.selectedSource with
  | none => simp [hs]
  | some src => simp [hs, h]

theorem toggleEditMode_enters_edit (app : App) (h : app.isEditMode = false) :
    (toggleEditMode app).selectedSource = app.selectedSource := by
  unfold toggleEditMode
  cases hs : app.selectedSource with
  | none => simp [hs]
  | some src => simp [hs, h]

theorem step_pendingOnlyInEdit (app : App) (e : Event) (h : PendingOnlyInEdit app) :
    PendingOnlyInEdit (step app e) := by
  cases e with
  | tap n =>
    simp only [step]
    split
    · intro hs
      rw [handleNodeClick_mode]
      cases hm : app.isEditMode with
      | true => rfl
      | false =>
        rw [(handleNodeClick_view app n hm).1] at hs
        rw [← hm]
        exact h hs
    · exact h
  | toggle =>
    intro hs
    simp only [step] at hs ⊢
    rw [toggleEditMode_flip]
    cases hm : app.isEditMode with
    | true => exact absurd (toggleEditMode_leaves_edit app hm) hs
    | false => rfl
  | pickType ty =>
    simp only [step]
    split
    · split
      · exact h
      · exact h
    · exact h
  | writeNotes notes =>
    simp only [step]
    split
    · exact h
    · exact h
  | save =>
    simp only [step]
    split
    · intro hs
      rw [(saveRelationship_mode app _ _).1] at hs
      rw [(saveRelationship_mode app _ _).2]
      exact h hs
    · exact h
  | cancel =>
    simp only [step]
    split
    · exact h
    · exact h

theorem run_pendingOnlyInEdit (events : List Event) (app : App) (h : PendingOnlyInEdit app) :
    PendingOnlyInEdit (run app events) := by
  induction events generalizing app with
  | nil => exact h
  | cons e rest ih => exact ih _ (step_pendingOnlyInEdit app e h)

theorem init_pendingOnlyInEdit {page : App} {db : Db} {a0 : App} (h : init page db = .ok a0) :
    PendingOnlyInEdit a0 := by
  unfold init at h
  cases hl : loadNetworkData db with
  | error e => rw [hl] at h; cases h
  | ok els =>
    rw [hl] at h
    cases h
    intro hs
    exact absurd rfl hs

theorem step_tap_toggle_db (app : App) (e : Event) (h : e = .toggle ∨ ∃ n, e = .tap n) :
    (step app e).db = app.db := by
  rcases h with rfl | ⟨n, rfl⟩
  · exact toggleEditMode_db app
  · simp only [step]
    split
    · exact handleNodeClick_db app n
    · rfl

theorem run_taps_toggles_db (events : List Event) (app : App)
    (h : ∀ e ∈ events, e = .toggle ∨ ∃ n, e = .tap n) : (run app events).db = app.db := by
  induction events generalizing app with
  | nil => rfl
  | cons e rest ih =>
    have := ih (step app e) (fun e' he' => h e' (List.mem_cons_of_mem _ he'))
    exact this.trans (step_tap_toggle_db app e (h e (List.mem_cons_self _ _)))

theorem step_tap_edit_idle (app : App) (S : Val) (hedit : app.isEditMode = true)
    (hnone : app.selectedSource = none) :
    (step app (.tap S)).isEditMode = true ∧ (step app (.tap S)).modal = app.modal ∧
    (step app (.tap S)).modalHidden = app.modalHidden := by
  simp only [step]
  split
  · unfold handleNodeClick
    rw [if_pos hedit, hnone]
    exact ⟨hedit, rfl, rfl⟩
  · exact ⟨hedit, rfl, rfl⟩

/-- C9. `toggleEditMode` flips the mode, so two toggles restore it; leaving Edit mode
clears the pending source.  In every state reached from the start of the script by taps,
toggles, picker edits, picker save and picker cancel, a pending source exists only in
Edit mode; taps and toggles alone never change the store; and a tap on `S` followed by a
toggle leaves no pending source, the modal as it was and the store as it was, so that the
next tap after toggling back starts a new selection instead of completing `S → T`. -/
theorem toggle_clears_pending_source (page : App) (db : Db) (a0 : App) (events : List Event)
    (hinit : init page db = .ok a0) :
    (∀ app : App, (toggleEditMode app).isEditMode = !app.isEditMode) ∧
    (∀ app : App, (toggleEditMode (toggleEditMode app)).isEditMode = app.isEditMode) ∧
    (∀ app : App, app.isEditMode = true →
      (toggleEditMode app).isEditMode = false ∧ (toggleEditMode app).selectedSource = none) ∧
    ((run a0 events).selectedSource ≠ none → (run a0 events).isEditMode = true) ∧
    (∀ more : List Event, (∀ e ∈ more, e = .toggle ∨ ∃ n, e = .tap n) →
      (run (run a0 events) more).db = (run a0 events).db) ∧
    (∀ S T : Val, (run a0 events).isEditMode = true → (run a0 events).selectedSource = none →
      (run (run a0 events) [.tap S, .toggle]).selectedSource = none ∧
      (run (run a0 events) [.tap S, .toggle]).isEditMode = false ∧
      (run (run a0 events) [.tap S, .toggle, .toggle, .tap T]).modal = (run a0 events).modal ∧
      (run (run a0 events) [.tap S, .toggle, .toggle, .tap T]).modalHidden =
        (run a0 events).modalHidden ∧
      (run (run a0 events) [.tap S, .toggle, .toggle, .tap T]).db = (run a0 events).db) := by
  refine ⟨toggleEditMode_flip, ?_, ?_, ?_, ?_, ?_⟩
  · intro app
    rw [toggleEditMode_flip, toggleEditMode_flip, Bool.not_not]
  · intro app h
    exact ⟨by rw [toggleEditMode_flip, h]; rfl, toggleEditMode_leaves_edit app h⟩
  · exact run_pendingOnlyInEdit events a0 (init_pendingOnlyInEdit hinit)
  · intro more h
    exact run_taps_toggles_db more _ h
  · intro S T hedit hnone
    generalize run a0 events = a at hedit hnone
    obtain ⟨h1, h2, h3⟩ := step_tap_edit_idle a S hedit hnone
    have hoff : (toggleEditMode (step a (.tap S))).selectedSource = none :=
      toggleEditMode_leaves_edit _ h1
    have hmode : (toggleEditMode (step a (.tap S))).isEditMode = false := by
      rw [toggleEditMode_flip, h1]; rfl
    have hon : (toggleEditMode (toggleEditMode (step a (.tap S)))).selectedSource = none := by
      rw [toggleEditMode_enters_edit _ hmode, hoff]
    have hmode2 : (toggleEditMode (toggleEditMode (step a (.tap S)))).isEditMode = true := by
      rw [toggleEditMode_flip, hmode]; rfl
    obtain ⟨_, h5, h6⟩ := step_tap_edit_idle _ T hmode2 hon
    refine ⟨hoff, hmode, ?_, ?_, ?_⟩
    · show (step (toggleEditMode (toggleEditMode (step a (.tap S)))) (.tap T)).modal = a.modal
      rw [h5, (toggleEditMode_modal _).1, (toggleEditMode_modal _).1, h2]
    · show (step (toggleEditMode (toggleEditMode (step a (.tap S)))) (.tap T)).modalHidden =
        a.modalHidden
      rw [h6, (toggleEditMode_modal _).2, (toggleEditMode_modal _).2, h3]
    · exact run_taps_toggles_db _ a (by simp)

/-- Witness for `toggle_clears_pending_source`: the script started over `chainStore`,
then Edit mode, taps on `a` and `b`, `hates` picked and saved. -/
theorem toggle_clears_pending_source_witness :
    init chainView chainStore = .ok chainStart ∧
    (run chainStart [.toggle, .tap (.str "a"), .tap (.str "b"), .pickType "hates", .save]).db.relationships =
      [⟨2, "b", "c", "hates", .num (-2), .null⟩, ⟨3, "a", "b", "hates", .num (-2), .str ""⟩] ∧
    ((run chainStart [.toggle, .tap (.str "a"), .tap (.str "b"), .pickType "hates", .save]).selectedSource
        ≠ none →
      (run chainStart [.toggle, .tap (.str "a"), .tap (.str "b"), .pickType "hates", .save]).isEditMode
        = true) ∧
    (run chainStart [.toggle, .tap (.str "a"), .toggle, .toggle, .tap (.str "b")]).selectedSource =
      some (.str "b") ∧
    (run chainStart [.toggle, .tap (.str "a"), .toggle, .toggle, .tap (.str "b")]).modal = .blank :=
  ⟨rfl, by decide,
   (toggle_clears_pending_source chainView chainStore chainStart
      [.toggle, .tap (.str "a"), .tap (.str "b"), .pickType "hates", .save] rfl).2.2.2.1,
   by decide, by decide⟩

/-! ## Types outside the scale -/

theorem saveRelationship_types (app : App) (s t : String)
    (hinv : ∀ r ∈ app.db.relationships, r.type ∈ relationshipTypes) :
    ∀ r ∈ (saveRelationship app s t).state.db.relationships, r.type ∈ relationshipTypes := by
  rcases saveRelationship_cases app s t with ⟨h, _⟩ | ⟨ty, notes, db1, _, _, hrun, hdb⟩
  · rw [h]; exact hinv
  · rw [hdb]
    intro r hr
    rcases runInsertOrReplace_mem hrun hr with h | h
    · exact hinv r h
    · subst h
      exact (bindable_scale_iff ty).mp (runInsertOrReplace_ok hrun).1

theorem completeWizard_types (app : App) (id : String)
    (hinv : ∀ r ∈ app.db.relationships, r.type ∈ relationshipTypes) :
    ∀ r ∈ (completeWizard app id).state.db.relationships, r.type ∈ relationshipTypes := by
  intro r hr
  rcases completeWizard_db app id with h | h
  · rw [h] at hr; exact hinv r hr
  · rw [h] at hr
    rcases insertOutgoing_mem _ _ _ _ hr with h' | ⟨h1, _⟩
    · exact hinv r h'
    · exact h1

theorem calls_types (calls : List Call) (app : App)
    (hinv : ∀ r ∈ app.db.relationships, r.type ∈ relationshipTypes) :
    ∀ r ∈ (calls.foldl Call.apply app).db.relationships, r.type ∈ relationshipTypes := by
  induction calls generalizing app with
  | nil => exact hinv
  | cons c rest ih =>
    rw [List.foldl_cons]
    cases c with
    | save modal s t => exact ih _ (saveRelationship_types { app with modal := modal } s t hinv)
    | complete modal id => exact ih _ (completeWizard_types { app with modal := modal } id hinv)

/-- C6. With a type outside the seven in `rel-type`, `saveRelationship` stops with the
store's error for a parameter it cannot bind (the scale lookup gives no number), before
any row is written: the whole state, relationships included, is as before.  Hence rows
with a type outside the set never come into being: if the loaded rows have enumerated
types, so have the rows after any sequence of `saveRelationship` and `completeWizard`
calls, whatever the forms hold. -/
theorem unknown_type_is_rejected (app : App) (s t ty notes : String) (calls : List Call)
    (hty : ty ∉ relationshipTypes)
    (hm : getElementValue app.modal "rel-type" = some ty)
    (hn : getElementValue app.modal "rel-notes" = some notes)
    (hinv : ∀ r ∈ app.db.relationships, r.type ∈ relationshipTypes) :
    saveRelationship app s t = ⟨app, some .wrongApiUse⟩ ∧
    (∀ r ∈ (calls.foldl Call.apply app).db.relationships, r.type ∈ relationshipTypes) := by
  refine ⟨?_, calls_types calls app hinv⟩
  have hb : bindable (RELATIONSHIP_SCALE ty) = false := by
    rw [Bool.eq_false_iff]
    exact fun h => hty ((bindable_scale_iff ty).mp h)
  simp [saveRelationship, hm, hn, runInsertOrReplace, hb]

/-- Witness for `unknown_type_is_rejected`: the type `adores`, and a later call that
tries `constructor`, a name the scale object inherits. -/
theorem unknown_type_is_rejected_witness :
    ("adores" ∉ relationshipTypes ∧
      getElementValue chainPickerAdores.modal "rel-type" = some "adores" ∧
      getElementValue chainPickerAdores.modal "rel-notes" = some "since the voyage" ∧
      ∀ r ∈ chainPickerAdores.db.relationships, r.type ∈ relationshipTypes) ∧
    saveRelationship chainPickerAdores "a" "b" = ⟨chainPickerAdores, some .wrongApiUse⟩ ∧
    (∀ r ∈ (List.foldl Call.apply chainPickerAdores
        [.save (.picker "a" "c" "constructor" "") "a" "c",
         .save (.picker "c" "a" "dislikes" "") "c" "a"]).db.relationships,
      r.type ∈ relationshipTypes) :=
  ⟨⟨by decide, by decide, by decide, by decide⟩,
   unknown_type_is_rejected chainPickerAdores "a" "b" "adores" "since the voyage"
    [.save (.picker "a" "c" "constructor" "") "a" "c",
     .save (.picker "c" "a" "dislikes" "") "c" "a"]
    (by decide) (by decide) (by decide) (by decide)⟩

/-! ## The projection -/

theorem isUpper_iff (c : Char) : c.isUpper = true ↔ 65 ≤ c.val.toNat ∧ c.val.toNat ≤ 90 := by
  simp only [Char.isUpper, Bool.and_eq_true, decide_eq_true_eq, ge_iff_le]
  exact Iff.rfl

theorem isLower_iff (c : Char) : c.isLower = true ↔ 97 ≤ c.val.toNat ∧ c.val.toNat ≤ 122 := by
  simp only [Char.isLower, Bool.and_eq_true, decide_eq_true_eq, ge_iff_le]
  exact Iff.rfl

theorem isDigit_iff (c : Char) : c.isDigit = true ↔ 48 ≤ c.val.toNat ∧ c.val.toNat ≤ 57 := by
  simp only [Char.isDigit, Bool.and_eq_true, decide_eq_true_eq, ge_iff_le]
  exact Iff.rfl

theorem toLower_isLower (c : Char) (h : c.isUpper = true) : c.toLower.isLower = true := by
  have h1 := (isUpper_iff c).mp h
  unfold Char.toLower
  simp only [Char.toNat, ge_iff_le]
  rw [if_pos h1]
  generalize c.val.toNat = n at h1
  obtain ⟨a, b⟩ := h1
  interval_cases n <;> decide

theorem isIdChar_not_upper (c : Char) (h : isIdChar c = true) : c.isUpper = false := by
  rw [Bool.eq_false_iff]
  intro hu
  have hu := (isUpper_iff c).mp hu
  simp only [isIdChar, Bool.or_eq_true, beq_iff_eq] at h
  rcases h with (h | h) | h
  · have := (isLower_iff c).mp h; omega
  · have := (isDigit_iff c).mp h; omega
  · subst h; revert hu; decide

theorem isIdChar_word (c : Char) (h : isIdChar c = true) : isWordChar c = true := by
  simp only [isIdChar, Bool.or_eq_true, beq_iff_eq] at h
  simp only [isWordChar, Char.isAlphanum, Char.isAlpha, Bool.or_eq_true, beq_iff_eq]
  tauto

theorem word_not_upper_isIdChar (c : Char) (hu : c.isUpper = false) (hw : isWordChar c = true) :
    isIdChar c = true := by
  simp only [isWordChar, Char.isAlphanum, Char.isAlpha, hu, Bool.false_or, Bool.or_eq_true,
    beq_iff_eq] at hw
  simp only [isIdChar, Bool.or_eq_true, beq_iff_eq]
  exact hw

theorem lowerChar_word (c d : Char) (hd : d ∈ lowerChar c) (hw : isWordChar d = true) :
    isIdChar d = true := by
  unfold lowerChar at hd
  split_ifs at hd with h1 h2 h3
  · rw [List.mem_singleton] at hd
    subst hd
    simp [isIdChar, toLower_isLower c h1]
  · rw [List.mem_singleton] at hd
    subst hd
    decide
  · simp only [List.mem_cons, List.mem_singleton, List.not_mem_nil, or_false] at hd
    rcases hd with rfl | rfl
    · decide
    · revert hw; decide
  · rw [List.mem_singleton] at hd
    subst hd
    exact word_not_upper_isIdChar d (by simpa using h1) hw

theorem lowerChar_of_isIdChar (c : Char) (h : isIdChar c = true) : lowerChar c = [c] := by
  unfold lowerChar
  rw [if_neg (by simp [isIdChar_not_upper c h])]
  rw [if_neg (by rintro rfl; revert h; decide), if_neg (by rintro rfl; revert h; decide)]

theorem toLowerCase_of_isIdChar (s : List Char) (h : ∀ c ∈ s, isIdChar c = true) :
    toLowerCase s = s := by
  induction s with
  | nil => rfl
  | cons c cs ih =>
    simp only [toLowerCase, List.flatMap_cons]
    rw [lowerChar_of_isIdChar c (h c (List.mem_cons_self _ _))]
    have := ih (fun d hd => h d (List.mem_cons_of_mem _ hd))
    simp only [toLowerCase] at this
    rw [this]
    rfl

theorem replaceScan_of_word (s : List Char) (h : ∀ c ∈ s, isWordChar c = true) :
    replaceScan false s = s := by
  induction s with
  | nil => rfl
  | cons c cs ih =>
    simp only [replaceScan, h c (List.mem_cons_self _ _), if_true]
    rw [ih (fun d hd => h d (List.mem_cons_of_mem _ hd))]

theorem replaceScan_mem (b : Bool) (s : List Char) (c : Char) (h : c ∈ replaceScan b s) :
    c = '_' ∨ (c ∈ s ∧ isWordChar c = true) := by
  induction s generalizing b with
  | nil => simp [replaceScan] at h
  | cons d ds ih =>
    unfold replaceScan at h
    split_ifs at h with h1 h2
    · rcases List.mem_cons.mp h with rfl | h
      · exact Or.inr ⟨List.mem_cons_self _ _, h1⟩
      · rcases ih _ h with h | h
        · exact Or.inl h
        · exact Or.inr ⟨List.mem_cons_of_mem _ h.1, h.2⟩
    · rcases ih _ h with h | h
      · exact Or.inl h
      · exact Or.inr ⟨List.mem_cons_of_mem _ h.1, h.2⟩
    · rcases List.mem_cons.mp h with rfl | h
      · exact Or.inl rfl
      · rcases ih _ h with h | h
        · exact Or.inl h
        · exact Or.inr ⟨List.mem_cons_of_mem _ h.1, h.2⟩

theorem deriveId_chars (name : String) : ∀ c ∈ (deriveId name).data, isIdChar c = true := by
  intro c hc
  simp only [deriveId, replaceNonWord] at hc
  rcases replaceScan_mem _ _ _ hc with rfl | ⟨hm, hw⟩
  · decide
  · simp only [toLowerCase, List.mem_flatMap] at hm
    obtain ⟨c0, _, hd⟩ := hm
    exact lowerChar_word c0 c hd hw

theorem splitByLoop_collapse (l : List Char) (a : Char) (g : List Char) (gs : List (List Char))
    (hg : isWordChar a = false → ∀ c ∈ g, isWordChar c = false) :
    ((List.splitBy.loop (fun a b => isWordChar a == isWordChar b) l a g gs).map
        (fun r => if r.all (fun c => !isWordChar c) then ['_'] else r)).flatten =
      (gs.reverse.map (fun r => if r.all (fun c => !isWordChar c) then ['_'] else r)).flatten ++
        (if isWordChar a then g.reverse ++ [a] ++ replaceScan false l
         else '_' :: replaceScan true l) := by
  induction l generalizing a g gs with
  | nil =>
    simp only [List.splitBy.loop, List.reverse_cons, List.map_append, List.flatten_append,
      List.map_cons, List.map_nil, List.flatten_cons, List.flatten_nil, List.append_nil,
      replaceScan]
    congr 1
    cases ha : isWordChar a with
    | true =>
      have : (g.reverse ++ [a]).all (fun c => !isWordChar c) = false := by
        rw [Bool.eq_false_iff]
        intro h
        rw [List.all_eq_true] at h
        have := h a (by simp)
        simp [ha] at this
      simp [this]
    | false =>
      have : (g.reverse ++ [a]).all (fun c => !isWordChar c) = true := by
        rw [List.all_eq_true]
        intro c hc
        simp only [List.mem_append, List.mem_reverse, List.mem_singleton] at hc
        rcases hc with hc | rfl
        · simp [hg ha c hc]
        · simp [ha]
      simp [this]
  | cons b l ih =>
    cases ha : isWordChar a with
    | true =>
      cases hb : isWordChar b with
      | true =>
        have hstep : List.splitBy.loop (fun a b => isWordChar a == isWordChar b) (b :: l) a g gs =
            List.splitBy.loop (fun a b => isWordChar a == isWordChar b) l b (a :: g) gs := by
          simp [List.splitBy.loop, ha, hb]
        rw [hstep, ih b (a :: g) gs (by simp [hb])]
        simp [hb, replaceScan]
      | false =>
        have hstep : List.splitBy.loop (fun a b => isWordChar a == isWordChar b) (b :: l) a g gs =
            List.splitBy.loop (fun a b => isWordChar a == isWordChar b) l b []
              ((a :: g).reverse :: gs) := by
          simp [List.splitBy.loop, ha, hb]
        have hrun : (g.reverse ++ [a]).all (fun c => !isWordChar c) = false := by
          rw [Bool.eq_false_iff]
          intro h
          rw [List.all_eq_true] at h
          have := h a (by simp)
          simp [ha] at this
        rw [hstep, ih b [] ((a :: g).reverse :: gs) (by simp)]
        simp only [List.reverse_cons, List.map_append, List.map_cons, List.map_nil,
          List.flatten_append, List.flatten_cons, List.flatten_nil, hrun, ha, hb, replaceScan,
          Bool.false_eq_true, if_false, if_true, List.append_assoc, List.reverse_nil,
          List.nil_append, List.append_nil, List.singleton_append, List.cons_append]
    | false =>
      have hrun : (g.reverse ++ [a]).all (fun c => !isWordChar c) = true := by
        rw [List.all_eq_true]
        intro c hc
        simp only [List.mem_append, List.mem_reverse, List.mem_singleton] at hc
        rcases hc with hc | rfl
        · simp [hg ha c hc]
        · simp [ha]
      cases hb : isWordChar b with
      | true =>
        have hstep : List.splitBy.loop (fun a b => isWordChar a == isWordChar b) (b :: l) a g gs =
            List.splitBy.loop (fun a b => isWordChar a == isWordChar b) l b []
              ((a :: g).reverse :: gs) := by
          simp [List.splitBy.loop, ha, hb]
        rw [hstep, ih b [] ((a :: g).reverse :: gs) (by simp)]
        simp only [List.reverse_cons, List.map_append, List.map_cons, List.map_nil,
          List.flatten_append, List.flatten_cons, List.flatten_nil, hrun, ha, hb, replaceScan,
          Bool.false_eq_true, if_false, if_true, List.append_assoc, List.reverse_nil,
          List.nil_append, List.append_nil, List.singleton_append, List.cons_append]
      | false =>
        have hstep : List.splitBy.loop (fun a b => isWordChar a == isWordChar b) (b :: l) a g gs =
            List.splitBy.loop (fun a b => isWordChar a == isWordChar b) l b (a :: g) gs := by
          simp [List.splitBy.loop, ha, hb]
        rw [hstep, ih b (a :: g) gs (by
          intro _ c hc
          rcases List.mem_cons.mp hc with rfl | hc
          · exact ha
          · exact hg ha c hc)]
        simp [hb, replaceScan]

/-- The scanner computes the replacement as the spec words it. -/
theorem replaceNonWord_eq_collapse (s : List Char) :
    replaceNonWord s = collapseNonWordRuns s := by
  cases s with
  | nil => rfl
  | cons a l =>
    unfold collapseNonWordRuns replaceNonWord
    rw [List.splitBy, splitByLoop_collapse l a [] [] (by simp)]
    cases ha : isWordChar a <;> simp [replaceScan, ha]

theorem deriveId_idempotent (name : String) : deriveId (deriveId name) = deriveId name := by
  have h := deriveId_chars name
  have h1 : (deriveId name).data = replaceNonWord (toLowerCase name.data) := rfl
  rw [h1] at h
  show String.mk (replaceNonWord (toLowerCase (replaceNonWord (toLowerCase name.data)))) =
    String.mk (replaceNonWord (toLowerCase name.data))
  rw [toLowerCase_of_isIdChar _ h]
  congr 1
  exact replaceScan_of_word _ (fun c hc => isIdChar_word c (h c hc))

/-- C10. `addCharacterWizard` inserts the character under an id that depends on the name
alone: the lower-cased name in which every maximal run of non-word characters is replaced
by exactly one `_`.  The id consists of characters of `[a-z0-9_]`, and deriving an id
from a derived id gives it back. -/
theorem derived_id_is_collapsed_lowercase_name (app : App) (name : String)
    (color : Option String) (hne : name ≠ "")
    (hfree : (app.db.schema.characterKey &&
      app.db.characters.any (fun c => decide (c.id = deriveId name))) = false) :
    (addCharacterWizard app (some name) color).state.db.characters =
      app.db.characters ++
        [⟨deriveId name, name, (match color with | none => .null | some c => .str c),
          app.db.schema.groupDefault, app.db.schema.activeDefault⟩] ∧
    (deriveId name).data = collapseNonWordRuns (toLowerCase name.data) ∧
    (∀ c ∈ (deriveId name).data, isIdChar c = true) ∧
    deriveId (deriveId name) = deriveId name := by
  refine ⟨?_, replaceNonWord_eq_collapse _, deriveId_chars name, deriveId_idempotent name⟩
  unfold addCharacterWizard
  simp only [hne, if_false, runInsertCharacter, hfree, Bool.false_eq_true]
  split <;> rfl

/-- Witness for `derived_id_is_collapsed_lowercase_name`: the name `Darth  Vader, Jr.`
entered over `chainView`. -/
theorem derived_id_is_collapsed_lowercase_name_witness :
    ("Darth  Vader, Jr." ≠ "" ∧ deriveId "Darth  Vader, Jr." = "darth_vader_jr_") ∧
    (addCharacterWizard chainView (some "Darth  Vader, Jr.") (some "#000")).state.db.characters =
      chainView.db.characters ++
        [⟨deriveId "Darth  Vader, Jr.", "Darth  Vader, Jr.", .str "#000",
          chainView.db.schema.groupDefault, chainView.db.schema.activeDefault⟩] ∧
    (deriveId "Darth  Vader, Jr.").data =
      collapseNonWordRuns (toLowerCase "Darth  Vader, Jr.".data) ∧
    (∀ c ∈ (deriveId "Darth  Vader, Jr.").data, isIdChar c = true) ∧
    deriveId (deriveId "Darth  Vader, Jr.") = deriveId "Darth  Vader, Jr." :=
  ⟨⟨by decide, by decide⟩,
   derived_id_is_collapsed_lowercase_name chainView "Darth  Vader, Jr." (some "#000")
    (by decide) (by decide)⟩

end Network
